import Mathlib

/-!
Verification development for the company-research-agent pipeline.

Shallow embedding of the orchestrator (`src/application.py`), the briefing
synthesizer (`src/backend/nodes/briefing.py`) and the e-commerce auditor
gatherer (`src/backend/nodes/researchers/auditor.py`).  Python dictionaries
are modelled as association lists or `Option`-valued fields, Python string
truthiness (`if s:`) as a nonemptiness test, and external calls (LLM, search)
as explicit oracle arguments.
-/

namespace App

/-- Python `str.strip()`: drop whitespace from both ends.  (`String.trim`
does not reduce in the kernel, so the same operation is written over the
character list.) -/
def pyStrip (s : String) : String :=
  String.mk ((((s.data.dropWhile Char.isWhitespace).reverse.dropWhile
    Char.isWhitespace).reverse))

/-- The final accumulated state of the orchestrator drive loop
(`state` after `async for s in graph.run(...)` in `process_research`):
the fields that `process_research` inspects.  `editorReport` models
`(state.get('editor') or {}).get('report')`. -/
structure FinalState where
  report : Option String
  editorReport : Option String
  error : Option String
deriving DecidableEq, Repr

/-- Embeds `state.get('report') or (state.get('editor') or {}).get('report')`
with Python `or` semantics (an empty string is falsy). -/
def reportContent (st : FinalState) : Option String :=
  match st.report with
  | some r => if r = "" then st.editorReport else some r
  | none => st.editorReport

/-- The truthiness test `if report_content:` applied to `reportContent`:
`some r` exactly when non-empty report text was found. -/
def truthyReport (st : FinalState) : Option String :=
  match reportContent st with
  | some r => if r = "" then none else some r
  | none => none

/-- Embeds the error-message selection on the no-report path of
`process_research`: `error_message = "No report found"` unless
`state.get('error')` is truthy, in which case `f"Error: {error}"`. -/
def failMessage (st : FinalState) : String :=
  match st.error with
  | some e => if e = "" then "No report found" else "Error: " ++ e
  | none => "No report found"

/-- Outcome of driving the graph: either a final accumulated state, or an
exception reaching the top-level handler of `process_research`. -/
inductive RunOutcome where
  | ok (final : FinalState)
  | exn (msg : String)
deriving DecidableEq, Repr

/-- One entry of the in-memory `job_status` registry (the fields
`process_research` touches; `defaultdict` default values). -/
structure JobRecord where
  status : String
  report : Option String
  company : Option String
  error : Option String
deriving DecidableEq, Repr

/-- The `defaultdict` default entry of `job_status`. -/
def initialJobRecord : JobRecord :=
  { status := "pending", report := none, company := none, error := none }

/-- The process-wide single-slot `LATEST_REPORT` payload. -/
structure LatestReport where
  company : String
  report : String
deriving DecidableEq, Repr

/-- Initial value of the `LATEST_REPORT` module global (`None`). -/
def latestReportInit : Option LatestReport := none

/-- One status event broadcast through the websocket manager. -/
structure AppEvent where
  status : String
  message : String
  error : Option String
  result : Option (String × String)
deriving DecidableEq, Repr

/-- Effect of one `process_research` run on the job's `job_status` entry.
The registry is written only on the success branch (`if report_content:`);
the no-report branch and the exception handler leave it untouched. -/
def jobStatusAfter (run : RunOutcome) (company : String) (prev : JobRecord) :
    JobRecord :=
  match run with
  | .ok final =>
    match truthyReport final with
    | some r =>
      { prev with
        status := "completed"
        report := some r
        company := some company }
    | none => prev
  | .exn _ => prev

/-- Effect of one `process_research` run on the `LATEST_REPORT` slot:
assigned only on the success branch, with the found report text. -/
def latestAfterRun (run : RunOutcome) (company : String)
    (prev : Option LatestReport) : Option LatestReport :=
  match run with
  | .ok final =>
    match truthyReport final with
    | some r => some { company := company, report := r }
    | none => prev
  | .exn _ => prev

/-- The sequence of status events `process_research` broadcasts: the initial
"processing" event, then the terminal event of the taken branch. -/
def runEvents (run : RunOutcome) (company : String) : List AppEvent :=
  { status := "processing"
    message := "Starting research"
    error := none
    result := none } ::
  match run with
  | .ok final =>
    match truthyReport final with
    | some r =>
      [{ status := "completed"
         message := "Research completed successfully"
         error := none
         result := some (r, company) }]
    | none =>
      [{ status := "failed"
         message := "Research completed but no report was generated"
         error := some (failMessage final)
         result := none }]
  | .exn e =>
    [{ status := "failed"
       message := "Research failed: " ++ e
       error := some e
       result := none }]

/-- The terminal (last) broadcast event of a run. -/
def terminalEvent (run : RunOutcome) (company : String) : AppEvent :=
  ((runEvents run company).getLast?).getD
    { status := ""
      message := ""
      error := none
      result := none }

/-- Embeds the guard chain of the `qa_stream` endpoint: 503 when the Azure
client is unconfigured, 400 for a blank question, 400 when the
`LATEST_REPORT` slot is empty or holds no report text; otherwise the stream
is started over (company, report) context. -/
def qa_stream (clientConfigured : Bool) (latest : Option LatestReport)
    (question : String) : Except (Nat × String) (String × String) :=
  if clientConfigured = false then
    .error (503, "Q&A not configured: missing Azure OpenAI credentials")
  else if pyStrip question = "" then
    .error (400, "Question is required")
  else
    match latest with
    | none => .error (400, "No report loaded yet. Run research first.")
    | some lr =>
      if lr.report = "" then
        .error (400, "No report loaded yet. Run research first.")
      else
        .ok (lr.company, lr.report)

end App

namespace Briefing

/-- A research document as the briefing synthesizer and the auditor see it:
every field a `doc.get(...)` access may find missing is an `Option`.  The
relevance score `doc.get('evaluation', \x7b\x7d).get('overall_score', '0')`
is modelled already parsed, as a rational. -/
structure Doc where
  url : Option String
  title : Option String
  raw_content : Option String
  content : Option String
  query : Option String
  source : Option String
  overall_score : Option ℚ
deriving DecidableEq, Repr

/-- A document with every field absent (the smallest `dict`). -/
def emptyDoc : Doc :=
  { url := none
    title := none
    raw_content := none
    content := none
    query := none
    source := none
    overall_score := none }

/-- Score used for ranking: the parsed `overall_score`, defaulting to
`float('0')` when the evaluation entry is absent. -/
def docScore (d : Doc) : ℚ := d.overall_score.getD 0

/-- Input to `generate_category_briefing`: a dict (url-keyed, in insertion
order) or a plain sequence of documents. -/
inductive DocsInput where
  | dict (items : List (String × Doc))
  | seq (docs : List Doc)
deriving DecidableEq, Repr

/-- Embeds the normalization step: `list(docs.items())` for a dict, and
`[(doc.get('url', f'doc_\x7bi\x7d'), doc) for i, doc in enumerate(docs)]`
for a sequence. -/
def normalizeDocs : DocsInput → List (String × Doc)
  | .dict items => items
  | .seq docs => docs.enum.map (fun p => (p.2.url.getD ("doc_" ++ toString p.1), p.2))

/-- Ranking relation of the `sorted(..., key=score, reverse=True)` call:
`x` may precede `y` when `x`'s score is at least `y`'s. -/
def scoreGe (x y : String × Doc) : Prop := docScore y.2 ≤ docScore x.2

instance : DecidableRel scoreGe := fun x y =>
  inferInstanceAs (Decidable (docScore y.2 ≤ docScore x.2))

instance : IsTotal (String × Doc) scoreGe :=
  ⟨fun x y => le_total (docScore y.2) (docScore x.2)⟩

instance : IsTrans (String × Doc) scoreGe :=
  ⟨fun _ _ _ h1 h2 => le_trans h2 h1⟩

/-- Embeds `sorted(items, key=..., reverse=True)`.  Python `sorted` is a
stable sort, and a stable sort by a total preorder is unique, so the stable
`List.insertionSort` computes the same ordering. -/
def sortedItems (input : DocsInput) : List (String × Doc) :=
  List.insertionSort scoreGe (normalizeDocs input)

/-- Python `a or b` on an optional string against a string default:
`doc.get(k) or d` (an empty string is falsy). -/
def pyOrStr (a : Option String) (b : String) : String :=
  match a with
  | some s => if s = "" then b else s
  | none => b

/-- The body text chosen for a document:
`doc.get('raw_content') or doc.get('content', '')`. -/
def docContent (d : Doc) : String := pyOrStr d.raw_content (d.content.getD "")

/-- Per-document truncation: bodies longer than `max_doc_length = 8000`
characters are cut and the truncation marker appended. -/
def truncateContent (c : String) : String :=
  if 8000 < c.length then c.take 8000 ++ "... [content truncated]" else c

/-- The prompt entry built for one document:
`f"Title: \x7btitle\x7d\n\nContent: \x7bcontent\x7d"`. -/
def docEntry (d : Doc) : String :=
  "Title: " ++ d.title.getD "" ++ "\n\nContent: " ++ truncateContent (docContent d)

/-- Embeds the aggregation loop of `generate_category_briefing`: walk the
ranked items, keep a running total, include an entry only while
`total_length + len(doc_entry) < 120000`, and `break` (dropping the whole
rest) at the first entry that would reach the cap. -/
def buildDocTexts : List (String × Doc) → Nat → List String
  | [], _ => []
  | p :: rest, total =>
    let e := docEntry p.2
    if total + e.length < 120000 then e :: buildDocTexts rest (total + e.length)
    else []

/-- Number of leading ranked items the aggregation loop includes. -/
def includeCount : List (String × Doc) → Nat → Nat
  | [], _ => 0
  | p :: rest, total =>
    let e := docEntry p.2
    if total + e.length < 120000 then includeCount rest (total + e.length) + 1
    else 0

/-- Sum of the entry lengths of a run of items (the `total_length`
accumulator value after including exactly these items). -/
def sumEntryLen (l : List (String × Doc)) : Nat :=
  (l.map (fun p => (docEntry p.2).length)).sum

/-- Result of the LLM call inside `generate_category_briefing`, as the
`try` block observes it: the call raises, or returns a message whose
`content` attribute is absent (`None`, on which `.strip()` raises) or a
string. -/
inductive LlmOutcome where
  | raises (e : String)
  | returns (content : Option String)
deriving DecidableEq, Repr

/-- The `\x7b'content': ...\x7d` result dict of `generate_category_briefing`. -/
structure BriefingResult where
  content : String
deriving DecidableEq, Repr

/-- Embeds the `try/except` around the generation call: a raised exception
(or a `None` content, whose `.strip()` raises inside the `try`) yields
`\x7b'content': ''\x7d`; a returned string is stripped, and an empty strip
also yields `\x7b'content': ''\x7d` — the stripped text otherwise.  The
function is total: no path re-raises. -/
def generate_category_briefing (llm : LlmOutcome) : BriefingResult :=
  match llm with
  | .raises _ => { content := "" }
  | .returns none => { content := "" }
  | .returns (some c) => { content := App.pyStrip c }

/-- One row of the category table of `create_briefings`:
`data_field ↦ (category, briefing_key)`. -/
structure CatSpec where
  dataField : String
  category : String
  briefingKey : String
deriving DecidableEq, Repr

/-- The fixed category table of `create_briefings`, in source order. -/
def categoriesList : List CatSpec :=
  [ { dataField := "financial_data", category := "financial", briefingKey := "financial_briefing" }
  , { dataField := "news_data", category := "news", briefingKey := "news_briefing" }
  , { dataField := "industry_data", category := "industry", briefingKey := "industry_briefing" }
  , { dataField := "company_data", category := "company", briefingKey := "company_briefing" }
  , { dataField := "auditor_data", category := "auditor", briefingKey := "auditor_briefing" } ]

/-- The curated inputs of the state: for each data field, the value of
`state.get(f'curated_\x7bdata_field\x7d', \x7b\x7d)` as a url-keyed
association list. -/
def CuratedState := String → List (String × Doc)

/-- One fan-out task queued by `create_briefings`. -/
structure BriefTask where
  category : String
  briefingKey : String
  dataField : String
  curatedData : List (String × Doc)
deriving DecidableEq, Repr

/-- Embeds the task-building loop of `create_briefings`: walk the category
table; a category with truthy (non-empty) curated data queues a fan-out
task, an empty one immediately writes `state[briefing_key] = ""` and queues
nothing. -/
def createBriefingTasks (s : CuratedState) :
    List BriefTask × List (String × String) :=
  categoriesList.foldl
    (fun acc cs =>
      let curated := s ("curated_" ++ cs.dataField)
      if curated ≠ [] then
        (acc.1 ++ [{ category := cs.category
                     briefingKey := cs.briefingKey
                     dataField := cs.dataField
                     curatedData := curated }], acc.2)
      else
        (acc.1, acc.2 ++ [(cs.briefingKey, "")]))
    ([], [])

/-- The fan-out tasks `create_briefings` queues. -/
def briefingTasks (s : CuratedState) : List BriefTask := (createBriefingTasks s).1

/-- The empty-string briefings `create_briefings` writes directly into the
state for categories with no curated data. -/
def emptyBriefingWrites (s : CuratedState) : List (String × String) :=
  (createBriefingTasks s).2

end Briefing

namespace Auditor

open Briefing

/-- A category document map (`auditor_data`): a url-keyed Python dict,
modelled as an association list in insertion order. -/
def DocMap := List (String × Doc)
deriving DecidableEq, Repr

/-- Python dict assignment `m[u] = d`: replace the value in place when the
key is present, append a new entry otherwise. -/
def insertDoc : DocMap → String → Doc → DocMap
  | [], u, d => [(u, d)]
  | p :: rest, u, d =>
    if p.1 = u then (u, d) :: rest else p :: insertDoc rest u d

/-- Python dict lookup `m.get(u)`: the value at the first (and, under the
dict key invariant, only) entry with the given key. -/
def lookupDoc : DocMap → String → Option Doc
  | [], _ => none
  | p :: rest, u => if p.1 = u then some p.2 else lookupDoc rest u

/-- Keys of a document map are pairwise distinct (a dict invariant). -/
def keysNodup (m : DocMap) : Prop := (m.map (fun p => p.1)).Nodup

/-- Apply a sequence of url-keyed writes in order. -/
def applyWrites (m : DocMap) (ws : List (String × Doc)) : DocMap :=
  ws.foldl (fun acc w => insertDoc acc w.1 w.2) m

/-- The mutation `doc['query'] = query` performed on each search result
before it is merged. -/
def setQuery (d : Doc) (q : String) : Doc := { d with query := some q }

/-- Embeds the merge loop of `OnlineEcommerceAuditor.analyze` on the
success path: one batch per query, in query-processing order; each result
document gets its `query` field set and is written into the map
(`auditor_data[url] = doc`). -/
def mergeQueryResults (batches : List (String × List (String × Doc)))
    (m0 : DocMap) : DocMap :=
  batches.foldl
    (fun m b => applyWrites m (b.2.map (fun p => (p.1, setQuery p.2 b.1)))) m0

/-- The flat write sequence the merge loop performs, in processing order. -/
def writesOf (batches : List (String × List (String × Doc))) :
    List (String × Doc) :=
  (batches.map (fun b => b.2.map (fun p => (p.1, setQuery p.2 b.1)))).flatten

/-- Embeds the search-and-merge loop with a fallible search capability
(`self.search_documents`): the first raising query aborts the loop with
that exception, otherwise every batch is merged in order. -/
def gatherDocs (search : String → Except String (List (String × Doc))) :
    List String → DocMap → Except String DocMap
  | [], m => .ok m
  | q :: rest, m =>
    match search q with
    | .error e => .error e
    | .ok docs =>
      gatherDocs search rest
        (applyWrites m (docs.map (fun p => (p.1, setQuery p.2 q))))

/-- External capabilities `analyze` calls: query planning and per-query
document search, each of which may raise. -/
structure AuditorEnv where
  genQueries : Except String (List String)
  search : String → Except String (List (String × Doc))

/-- One status event the auditor sends through the websocket manager. -/
structure AuditorEvent where
  status : String
  message : String
  error : Option String
deriving DecidableEq, Repr

/-- The error status event emitted by the `except` clause of `analyze`. -/
def auditorErrorEvent (e : String) : AuditorEvent :=
  { status := "error"
    message := "E-commerce audit failed: " ++ e
    error := some e }

/-- The body of the `try` block of `analyze` up to the merge loop: generate
queries, then search and merge every query batch. -/
def analyzeGather (env : AuditorEnv) (seed : DocMap) : Except String DocMap :=
  match env.genQueries with
  | .error e => .error e
  | .ok qs => gatherDocs env.search qs seed

/-- Progress events of the success path (query generation, search count,
completion), emitted only when a websocket manager and job id are present. -/
def auditorProgressEvents (hasWs : Bool) (n : Nat) :
    List AuditorEvent :=
  if hasWs then
    [ { status := "processing"
        message := "E-commerce audit queries generated"
        error := none }
    , { status := "processing"
        message := "Used Tavily Search to find " ++ toString n ++ " documents"
        error := none }
    , { status := "processing"
        message := "Completed e-commerce audit discovery with " ++
          toString n ++ " documents"
        error := none } ]
  else []

/-- The query-generated event alone (emitted before the merge loop runs). -/
def auditorQueryEvent (hasWs : Bool) : List AuditorEvent :=
  if hasWs then
    [ { status := "processing"
        message := "E-commerce audit queries generated"
        error := none } ]
  else []

/-- Embeds `OnlineEcommerceAuditor.analyze`: on success, returns the merged
document map and the queries; on any exception inside the `try` block, the
`except` clause emits an error status event (when a websocket manager is
present) and re-raises — the first component is then `.error e`. -/
def analyze (env : AuditorEnv) (hasWs : Bool) (seed : DocMap) :
    Except String (DocMap × List String) × List AuditorEvent :=
  match env.genQueries with
  | .error e => (.error e, if hasWs then [auditorErrorEvent e] else [])
  | .ok qs =>
    match gatherDocs env.search qs seed with
    | .error e =>
      (.error e,
        auditorQueryEvent hasWs ++ (if hasWs then [auditorErrorEvent e] else []))
    | .ok m => (.ok (m, qs), auditorProgressEvents hasWs (m.length))

end Auditor

namespace Fanout

/-- Lifecycle phase of one queued briefing fan-out task: not yet admitted
by the semaphore, holding a permit with its LLM call in flight, or finished
(with a success flag — `bool(result['content'])`; a failed generation still
finishes). -/
inductive TaskPhase where
  | waiting : TaskPhase
  | running : TaskPhase
  | finished : Bool → TaskPhase
deriving DecidableEq, Repr

/-- State of the briefing fan-out of `create_briefings`: the phase of every
queued task and the number of free permits of `briefing_semaphore`. -/
structure FanState where
  tasks : List TaskPhase
  sem : Nat
deriving DecidableEq, Repr

/-- Number of briefing calls currently in flight. -/
def runningCount (s : FanState) : Nat := s.tasks.count TaskPhase.running

/-- Number of tasks still waiting for a permit. -/
def waitingCount (s : FanState) : Nat := s.tasks.count TaskPhase.waiting

/-- Small-step semantics of `async with briefing_semaphore` under
`asyncio.gather`: a waiting task may start only when a permit is free
(acquire decrements the semaphore); a running task may finish with either
outcome (release increments it).  No step cancels a task: a failure of one
task never removes another. -/
inductive FanStep : FanState → FanState → Prop where
  | acquire (ts : List TaskPhase) (sem : Nat) (i : Nat)
      (hi : ts.get? i = some TaskPhase.waiting) (hs : 0 < sem) :
      FanStep ⟨ts, sem⟩ ⟨ts.set i TaskPhase.running, sem - 1⟩
  | release (ts : List TaskPhase) (sem : Nat) (i : Nat) (b : Bool)
      (hi : ts.get? i = some TaskPhase.running) :
      FanStep ⟨ts, sem⟩ ⟨ts.set i (TaskPhase.finished b), sem + 1⟩

/-- Initial fan-out state: all queued tasks waiting, and the two permits of
`asyncio.Semaphore(2)` free. -/
def fanInit (n : Nat) : FanState := ⟨List.replicate n TaskPhase.waiting, 2⟩

/-- A state reachable from the initial fan-out state. -/
def Reachable (n : Nat) (s : FanState) : Prop :=
  Relation.ReflTransGen FanStep (fanInit n) s

/-- Semaphore accounting invariant: free permits plus in-flight calls equal
the configured bound 2. -/
def SemInv (s : FanState) : Prop := s.sem + runningCount s = 2

/-- Every queued task has finished (successfully or not). -/
def AllFinished (s : FanState) : Prop :=
  ∀ t ∈ s.tasks, ∃ b, t = TaskPhase.finished b

/-- Termination measure of the fan-out: two steps remain per waiting task,
one per running task. -/
def fanMeasure (s : FanState) : Nat := 2 * waitingCount s + runningCount s

end Fanout

namespace App

theorem truthyReport_eq_some_iff (st : FinalState) (r : String) :
    truthyReport st = some r ↔ reportContent st = some r ∧ r ≠ "" := by
  unfold truthyReport
  cases h : reportContent st with
  | none => simp
  | some a =>
    by_cases ha : a = ""
    · subst ha
      simp only [if_pos rfl]
      constructor
      · intro hc
        exact absurd hc (by simp)
      · rintro ⟨ha2, hne⟩
        exact absurd (Option.some.inj ha2).symm hne
    · simp [ha]
      rintro rfl
      exact ha

theorem truthyReport_exists_iff (st : FinalState) :
    (∃ r, truthyReport st = some r) ↔
      ((∃ r, st.report = some r ∧ r ≠ "") ∨
       (∃ r, st.editorReport = some r ∧ r ≠ "")) := by
  rcases st with ⟨rep, ed, err⟩
  cases rep with
  | none =>
    cases ed with
    | none => simp [truthyReport, reportContent]
    | some b =>
      by_cases hb : b = "" <;>
        simp [truthyReport, reportContent, hb]
  | some a =>
    by_cases ha : a = ""
    · cases ed with
      | none => simp [truthyReport, reportContent, ha]
      | some b =>
        by_cases hb : b = "" <;>
          simp [truthyReport, reportContent, ha, hb]
    · simp [truthyReport, reportContent, ha]

theorem terminalEvent_ok_some (final : FinalState) (company r : String)
    (h : truthyReport final = some r) :
    terminalEvent (RunOutcome.ok final) company =
      { status := "completed"
        message := "Research completed successfully"
        error := none
        result := some (r, company) } := by
  unfold terminalEvent runEvents
  simp [h]

theorem terminalEvent_ok_none (final : FinalState) (company : String)
    (h : truthyReport final = none) :
    terminalEvent (RunOutcome.ok final) company =
      { status := "failed"
        message := "Research completed but no report was generated"
        error := some (failMessage final)
        result := none } := by
  unfold terminalEvent runEvents
  simp [h]

/-- C1: in the drive loop of `process_research`, the job is reported
"completed" exactly when the accumulated final state holds non-empty report
text under `report` or under the editor sub-map's `report`; otherwise it is
reported "failed", with error text "No report found" when the state has no
truthy `error` entry, and with the propagated error (rendered as
`"Error: " ++ e`) when it does. -/
theorem process_research_completed_iff (final : FinalState) (company : String) :
    ((terminalEvent (RunOutcome.ok final) company).status = "completed" ↔
      ((∃ r, final.report = some r ∧ r ≠ "") ∨
       (∃ r, final.editorReport = some r ∧ r ≠ ""))) ∧
    (∀ r, truthyReport final = some r →
      terminalEvent (RunOutcome.ok final) company =
        { status := "completed"
          message := "Research completed successfully"
          error := none
          result := some (r, company) }) ∧
    (truthyReport final = none →
      (terminalEvent (RunOutcome.ok final) company).status = "failed" ∧
      (terminalEvent (RunOutcome.ok final) company).error =
        some (failMessage final)) ∧
    (final.error = none → failMessage final = "No report found") ∧
    (∀ e, final.error = some e → e ≠ "" →
      failMessage final = "Error: " ++ e) := by
  refine ⟨?_, ?_, ?_, ?_, ?_⟩
  · rw [← truthyReport_exists_iff]
    constructor
    · intro hc
      cases h : truthyReport final with
      | none =>
        rw [terminalEvent_ok_none final company h] at hc
        exact absurd (show ("failed" : String) = "completed" from hc) (by decide)
      | some r => exact ⟨r, rfl⟩
    · rintro ⟨r, hr⟩
      rw [terminalEvent_ok_some final company r hr]
  · intro r h
    exact terminalEvent_ok_some final company r h
  · intro h
    rw [terminalEvent_ok_none final company h]
    exact ⟨rfl, rfl⟩
  · intro h
    simp [failMessage, h]
  · intro e h hne
    simp [failMessage, h, hne]

/-- C2: evaluation of the failure paths of `process_research` at concrete
inputs.  A run whose accumulated state carries no report (and a run ending
in the exception handler) broadcasts a terminal "failed" event, but never
writes into the `job_status` registry: the job's entry keeps the
`defaultdict` default status "pending" — not a terminal state. -/
theorem job_status_stays_pending_on_failure :
    jobStatusAfter
        (RunOutcome.ok { report := none, editorReport := none, error := none })
        "Acme" initialJobRecord = initialJobRecord ∧
    jobStatusAfter (RunOutcome.exn "boom") "Acme" initialJobRecord =
        initialJobRecord ∧
    initialJobRecord.status = "pending" ∧
    (terminalEvent
        (RunOutcome.ok { report := none, editorReport := none, error := none })
        "Acme").status = "failed" ∧
    (terminalEvent (RunOutcome.exn "boom") "Acme").status = "failed" := by
  refine ⟨rfl, rfl, rfl, rfl, rfl⟩

/-- C10: the `LATEST_REPORT` slot starts empty, is written exactly by runs
that complete with non-empty report text (overwriting any previous entry),
is left untouched by no-report and exception runs (so it is never cleared),
and `qa_stream` accepts a request exactly when the client is configured,
the question is not blank after stripping, and the slot holds a report. -/
theorem latest_report_slot_and_qa_guards :
    latestReportInit = none ∧
    (∀ final prev company r, truthyReport final = some r →
      latestAfterRun (RunOutcome.ok final) company prev =
        some { company := company, report := r }) ∧
    (∀ final prev company, truthyReport final = none →
      latestAfterRun (RunOutcome.ok final) company prev = prev) ∧
    (∀ e prev company, latestAfterRun (RunOutcome.exn e) company prev = prev) ∧
    (∀ run company prev, prev ≠ none →
      latestAfterRun run company prev ≠ none) ∧
    (∀ cc latest question,
      (qa_stream cc latest question).isOk = true ↔
        (cc = true ∧ pyStrip question ≠ "" ∧
          ∃ lr, latest = some lr ∧ lr.report ≠ "")) := by
  refine ⟨rfl, ?_, ?_, ?_, ?_, ?_⟩
  · intro final prev company r h
    simp [latestAfterRun, h]
  · intro final prev company h
    simp [latestAfterRun, h]
  · intro e prev company
    rfl
  · intro run company prev h
    cases run with
    | exn e => exact h
    | ok final =>
      cases ht : truthyReport final with
      | none => simpa [latestAfterRun, ht] using h
      | some r => simp [latestAfterRun, ht]
  · intro cc latest question
    cases cc with
    | false => simp [qa_stream, Except.isOk, Except.toBool]
    | true =>
      by_cases hq : pyStrip question = ""
      · simp [qa_stream, hq, Except.isOk, Except.toBool]
      · cases latest with
        | none => simp [qa_stream, hq, Except.isOk, Except.toBool]
        | some lr =>
          by_cases hr : lr.report = "" <;>
            simp [qa_stream, hq, hr, Except.isOk, Except.toBool]

end App

namespace Auditor

open Briefing

theorem lookupDoc_cons (p : String × Doc) (rest : DocMap) (u : String) :
    lookupDoc (p :: rest) u = if p.1 = u then some p.2 else lookupDoc rest u :=
  rfl

theorem insertDoc_cons (p : String × Doc) (rest : DocMap) (u : String)
    (d : Doc) :
    insertDoc (p :: rest) u d =
      if p.1 = u then (u, d) :: rest else p :: insertDoc rest u d := rfl

theorem lookup_insertDoc (m : DocMap) (u : String) (d : Doc) (v : String) :
    lookupDoc (insertDoc m u d) v =
      if v = u then some d else lookupDoc m v := by
  induction m with
  | nil =>
    show (if u = v then some d else none) =
      if v = u then some d else (none : Option Doc)
    by_cases h : v = u
    · rw [if_pos h.symm, if_pos h]
    · rw [if_neg (fun hc => h hc.symm), if_neg h]
  | cons p rest ih =>
    rw [insertDoc_cons]
    by_cases hp : p.1 = u
    · rw [if_pos hp, lookupDoc_cons, lookupDoc_cons]
      by_cases hv : v = u
      · rw [if_pos (show (u, d).1 = v from hv.symm), if_pos hv]
      · have h1 : ¬ (u, d).1 = v := fun hc => hv hc.symm
        have h2 : ¬ p.1 = v := fun hc => hv (hp.symm.trans hc).symm
        rw [if_neg h1, if_neg hv, if_neg h2]
    · rw [if_neg hp, lookupDoc_cons, lookupDoc_cons]
      by_cases hpv : p.1 = v
      · have hvu : ¬ v = u := fun hc => hp (hpv.trans hc)
        rw [if_pos hpv, if_neg hvu, if_pos hpv]
      · rw [if_neg hpv, if_neg hpv, ih]

theorem applyWrites_cons (m : DocMap) (w : String × Doc)
    (ws : List (String × Doc)) :
    applyWrites m (w :: ws) = applyWrites (insertDoc m w.1 w.2) ws := rfl

theorem lookup_applyWrites (ws : List (String × Doc)) (m : DocMap)
    (v : String) :
    lookupDoc (applyWrites m ws) v =
      match (ws.filter (fun p => p.1 == v)).getLast? with
      | some p => some p.2
      | none => lookupDoc m v := by
  induction ws generalizing m with
  | nil => rfl
  | cons w rest ih =>
    rw [applyWrites_cons, ih]
    by_cases hw : w.1 = v
    · have hf : (w :: rest).filter (fun p => p.1 == v) =
          w :: rest.filter (fun p => p.1 == v) :=
        List.filter_cons_of_pos (by simpa [beq_iff_eq] using hw)
      rw [hf]
      cases hfr : rest.filter (fun p => p.1 == v) with
      | nil =>
        show lookupDoc (insertDoc m w.1 w.2) v = some w.2
        rw [lookup_insertDoc, if_pos hw.symm]
      | cons x xs =>
        rw [List.getLast?_cons_cons]
        cases hgl : (x :: xs).getLast? with
        | none => simp at hgl
        | some y => rfl
    · have hf : (w :: rest).filter (fun p => p.1 == v) =
          rest.filter (fun p => p.1 == v) :=
        List.filter_cons_of_neg (by simpa [beq_iff_eq] using hw)
      rw [hf]
      cases hfr : rest.filter (fun p => p.1 == v) with
      | nil =>
        show lookupDoc (insertDoc m w.1 w.2) v = lookupDoc m v
        rw [lookup_insertDoc, if_neg (fun hc => hw hc.symm)]
      | cons x xs =>
        cases hgl : (x :: xs).getLast? with
        | none => simp at hgl
        | some y => rfl

theorem keys_insertDoc_subset (m : DocMap) (u : String) (d : Doc) (x : String)
    (hx : x ∈ (insertDoc m u d).map (fun p => p.1)) :
    x = u ∨ x ∈ m.map (fun p => p.1) := by
  induction m with
  | nil =>
    simp [insertDoc] at hx
    exact Or.inl hx
  | cons p rest ih =>
    by_cases hp : p.1 = u
    · simp only [insertDoc, if_pos hp, List.map, List.mem_cons] at hx
      rcases hx with h | h
      · exact Or.inl h
      · exact Or.inr (List.mem_cons_of_mem _ h)
    · simp only [insertDoc, if_neg hp, List.map, List.mem_cons] at hx
      rcases hx with h | h
      · exact Or.inr (by rw [List.map_cons, h]; exact List.mem_cons_self _ _)
      · rcases ih h with h2 | h2
        · exact Or.inl h2
        · exact Or.inr (by rw [List.map_cons]; exact List.mem_cons_of_mem _ h2)

theorem keysNodup_insertDoc (m : DocMap) (u : String) (d : Doc)
    (h : keysNodup m) : keysNodup (insertDoc m u d) := by
  induction m with
  | nil => simp [insertDoc, keysNodup]
  | cons p rest ih =>
    unfold keysNodup at h ⊢
    rw [List.map_cons, List.nodup_cons] at h
    by_cases hp : p.1 = u
    · simp only [insertDoc, if_pos hp, List.map_cons, List.nodup_cons]
      exact ⟨hp ▸ h.1, h.2⟩
    · simp only [insertDoc, if_neg hp, List.map_cons, List.nodup_cons]
      refine ⟨?_, ih h.2⟩
      intro hc
      rcases keys_insertDoc_subset rest u d p.1 hc with h2 | h2
      · exact hp h2
      · exact h.1 h2

theorem keysNodup_applyWrites (ws : List (String × Doc)) (m : DocMap)
    (h : keysNodup m) : keysNodup (applyWrites m ws) := by
  induction ws generalizing m with
  | nil => exact h
  | cons w rest ih =>
    rw [applyWrites_cons]
    exact ih _ (keysNodup_insertDoc m w.1 w.2 h)

theorem applyWrites_append (m : DocMap) (a b : List (String × Doc)) :
    applyWrites m (a ++ b) = applyWrites (applyWrites m a) b :=
  List.foldl_append _ _ _ _

theorem mergeQueryResults_eq_applyWrites
    (batches : List (String × List (String × Doc))) (m0 : DocMap) :
    mergeQueryResults batches m0 = applyWrites m0 (writesOf batches) := by
  induction batches generalizing m0 with
  | nil => rfl
  | cons b rest ih =>
    have h1 : mergeQueryResults (b :: rest) m0 =
        mergeQueryResults rest
          (applyWrites m0 (b.2.map (fun p => (p.1, setQuery p.2 b.1)))) := rfl
    have h2 : writesOf (b :: rest) =
        b.2.map (fun p => (p.1, setQuery p.2 b.1)) ++ writesOf rest := by
      simp [writesOf]
    rw [h1, ih, h2, applyWrites_append]

theorem gatherDocs_eq_merge
    (search : String → Except String (List (String × Doc)))
    (results : String → List (String × Doc)) (qs : List String) (m0 : DocMap)
    (h : ∀ q ∈ qs, search q = .ok (results q)) :
    gatherDocs search qs m0 =
      .ok (mergeQueryResults (qs.map (fun q => (q, results q))) m0) := by
  induction qs generalizing m0 with
  | nil => rfl
  | cons q rest ih =>
    have hq : search q = .ok (results q) := h q (List.mem_cons_self q rest)
    rw [gatherDocs, hq]
    exact ih _ (fun x hx => h x (List.mem_cons_of_mem q hx))

/-- C9: within one category's document map, gathering resolves URL
collisions last-write-wins in query-processing order: when every search
succeeds, the merged map has pairwise-distinct URLs (exactly one entry per
URL), and the entry at a URL is the payload of the last write to it — the
last query result whose URL matches, with its `query` field set to that
query — falling back to the seeded site-snapshot document only when no
query result ever wrote that URL (so a seed at a URL is overwritten by any
later query result at the same URL). -/
theorem auditor_url_collision_last_write_wins
    (search : String → Except String (List (String × Doc)))
    (results : String → List (String × Doc)) (qs : List String)
    (seed : DocMap) (hs : ∀ q ∈ qs, search q = .ok (results q))
    (hn : keysNodup seed) :
    ∃ m, gatherDocs search qs seed = .ok m ∧ keysNodup m ∧
      ∀ url, lookupDoc m url =
        match ((writesOf (qs.map (fun q => (q, results q)))).filter
            (fun p => p.1 == url)).getLast? with
        | some p => some p.2
        | none => lookupDoc seed url := by
  refine ⟨mergeQueryResults (qs.map (fun q => (q, results q))) seed,
    gatherDocs_eq_merge search results qs seed hs, ?_, ?_⟩
  · rw [mergeQueryResults_eq_applyWrites]
    exact keysNodup_applyWrites _ _ hn
  · intro url
    rw [mergeQueryResults_eq_applyWrites, lookup_applyWrites]

/-- Witness for C9: a seeded snapshot at a URL and two queries returning
that same URL collapse to one entry holding the second query's payload. -/
theorem auditor_url_collision_last_write_wins_witness :
    ∃ m, gatherDocs (fun q => .ok (if q = "q2" then
          [("https://acme.com", { emptyDoc with title := some "B" })]
        else [("https://acme.com", { emptyDoc with title := some "A" })]))
        ["q1", "q2"]
        [("https://acme.com", { emptyDoc with source := some "site_scrape" })]
        = .ok m ∧ keysNodup m ∧
      ∀ url, lookupDoc m url =
        match ((writesOf ((["q1", "q2"] : List String).map (fun q =>
            (q, if q = "q2" then
              [("https://acme.com", { emptyDoc with title := some "B" })]
            else [("https://acme.com",
              { emptyDoc with title := some "A" })])))).filter
            (fun p => p.1 == url)).getLast? with
        | some p => some p.2
        | none =>
          lookupDoc
            [("https://acme.com", { emptyDoc with source := some "site_scrape" })]
            url :=
  auditor_url_collision_last_write_wins
    (fun q => .ok (if q = "q2" then
        [("https://acme.com", { emptyDoc with title := some "B" })]
      else [("https://acme.com", { emptyDoc with title := some "A" })]))
    (fun q => if q = "q2" then
        [("https://acme.com", { emptyDoc with title := some "B" })]
      else [("https://acme.com", { emptyDoc with title := some "A" })])
    ["q1", "q2"]
    [("https://acme.com", { emptyDoc with source := some "site_scrape" })]
    (fun q _ => rfl) (by simp [keysNodup])

/-- C8: an exception raised inside the e-commerce auditor's gathering
(query planning or any document search) propagates to the caller: the
result of `analyze` is that same error (re-raised by the `except` clause),
and when a websocket manager and job id are present the last event emitted
before the re-raise is the error status event. -/
theorem auditor_analyze_propagates (env : AuditorEnv) (hasWs : Bool)
    (seed : DocMap) (e : String) (h : analyzeGather env seed = .error e) :
    (analyze env hasWs seed).1 = .error e ∧
    (hasWs = true →
      (analyze env hasWs seed).2.getLast? = some (auditorErrorEvent e)) := by
  unfold analyzeGather at h
  unfold analyze
  cases hg : env.genQueries with
  | error e2 =>
    rw [hg] at h
    cases h
    constructor
    · rfl
    · rintro rfl
      rfl
  | ok qs =>
    rw [hg] at h
    cases hgd : gatherDocs env.search qs seed with
    | error e2 =>
      simp only [hgd] at h ⊢
      cases h
      refine ⟨rfl, ?_⟩
      rintro rfl
      simp [auditorQueryEvent, List.getLast?_concat]
    | ok m =>
      simp only [hgd] at h
      exact Except.noConfusion h

/-- Witness for C8: a raising query-planning call propagates out of
`analyze` with the error event emitted last. -/
theorem auditor_analyze_propagates_witness :
    (analyze { genQueries := .error "boom", search := fun _ => .ok [] }
        true []).1 = .error "boom" ∧
    (analyze { genQueries := .error "boom", search := fun _ => .ok [] }
        true []).2.getLast? = some (auditorErrorEvent "boom") :=
  ⟨(auditor_analyze_propagates
      { genQueries := .error "boom", search := fun _ => .ok [] }
      true [] "boom" rfl).1,
   (auditor_analyze_propagates
      { genQueries := .error "boom", search := fun _ => .ok [] }
      true [] "boom" rfl).2 rfl⟩

end Auditor

namespace Fanout

theorem count_set_of_get? (l : List TaskPhase) (i : Nat) (a b c : TaskPhase)
    (h : l.get? i = some a) :
    (l.set i b).count c + (if a = c then 1 else 0) =
      l.count c + (if b = c then 1 else 0) := by
  induction l generalizing i with
  | nil => exact absurd h (by simp)
  | cons x t ih =>
    cases i with
    | zero =>
      have hx : x = a := by
        have := h
        simp only [List.get?] at this
        exact Option.some.inj this
      simp only [List.set, List.count_cons, hx]
      by_cases hac : a = c <;> by_cases hbc : b = c <;>
        simp [hac, hbc]
    | succ j =>
      have hj : t.get? j = some a := by
        simpa using h
      have := ih j hj
      simp only [List.set, List.count_cons]
      by_cases hxc : x = c <;> simp [hxc] <;> omega

theorem fanStep_inv {s s' : FanState} (hstep : FanStep s s')
    (hinv : SemInv s) : SemInv s' := by
  cases hstep with
  | acquire ts sem i hi hs =>
    unfold SemInv runningCount at hinv ⊢
    have hc := count_set_of_get? ts i TaskPhase.waiting TaskPhase.running
      TaskPhase.running hi
    simp at hc
    simp only at hinv ⊢
    omega
  | release ts sem i b hi =>
    unfold SemInv runningCount at hinv ⊢
    have hc := count_set_of_get? ts i TaskPhase.running (TaskPhase.finished b)
      TaskPhase.running hi
    simp at hc
    simp only at hinv ⊢
    omega

theorem reachable_inv (n : Nat) (s : FanState) (h : Reachable n s) :
    SemInv s := by
  unfold Reachable at h
  induction h with
  | refl =>
    unfold SemInv runningCount fanInit
    simp [List.count_replicate]
  | tail hsteps hstep ih => exact fanStep_inv hstep ih

theorem fan_progress (s : FanState) (hinv : SemInv s)
    (hnf : ¬ AllFinished s) :
    ∃ s', FanStep s s' ∧ fanMeasure s' < fanMeasure s ∧ SemInv s' := by
  obtain ⟨ts, sem⟩ := s
  have hex : ∃ t ∈ ts, t = TaskPhase.waiting ∨ t = TaskPhase.running := by
    by_contra hc
    push_neg at hc
    apply hnf
    intro t ht
    cases t with
    | waiting => exact absurd rfl (hc _ ht).1
    | running => exact absurd rfl (hc _ ht).2
    | finished b => exact ⟨b, rfl⟩
  by_cases hrun : TaskPhase.running ∈ ts
  · obtain ⟨⟨i, hilen⟩, hget⟩ := List.get_of_mem hrun
    have hi : ts.get? i = some TaskPhase.running := by
      rw [List.get?_eq_get hilen, hget]
    refine ⟨⟨ts.set i (TaskPhase.finished true), sem + 1⟩,
      FanStep.release ts sem i true hi, ?_, ?_⟩
    · have hw := count_set_of_get? ts i TaskPhase.running
        (TaskPhase.finished true) TaskPhase.waiting hi
      have hr := count_set_of_get? ts i TaskPhase.running
        (TaskPhase.finished true) TaskPhase.running hi
      simp at hw hr
      have hpos : 0 < ts.count TaskPhase.running :=
        List.count_pos_iff.mpr hrun
      unfold fanMeasure waitingCount runningCount
      simp only
      omega
    · exact fanStep_inv (FanStep.release ts sem i true hi) hinv
  · have hwait : TaskPhase.waiting ∈ ts := by
      obtain ⟨t, ht, hcase⟩ := hex
      rcases hcase with rfl | rfl
      · exact ht
      · exact absurd ht hrun
    have hrz : ts.count TaskPhase.running = 0 :=
      List.count_eq_zero.mpr hrun
    have hsem : 0 < sem := by
      unfold SemInv runningCount at hinv
      simp only at hinv
      omega
    obtain ⟨⟨i, hilen⟩, hget⟩ := List.get_of_mem hwait
    have hi : ts.get? i = some TaskPhase.waiting := by
      rw [List.get?_eq_get hilen, hget]
    refine ⟨⟨ts.set i TaskPhase.running, sem - 1⟩,
      FanStep.acquire ts sem i hi hsem, ?_, ?_⟩
    · have hw := count_set_of_get? ts i TaskPhase.waiting TaskPhase.running
        TaskPhase.waiting hi
      have hr := count_set_of_get? ts i TaskPhase.waiting TaskPhase.running
        TaskPhase.running hi
      simp at hw hr
      have hpos : 0 < ts.count TaskPhase.waiting :=
        List.count_pos_iff.mpr hwait
      unfold fanMeasure waitingCount runningCount
      simp only
      omega
    · exact fanStep_inv (FanStep.acquire ts sem i hi hsem) hinv

theorem fan_completes_aux (k : Nat) :
    ∀ s : FanState, fanMeasure s ≤ k → SemInv s →
      ∃ s', Relation.ReflTransGen FanStep s s' ∧ AllFinished s' := by
  induction k with
  | zero =>
    intro s hm hinv
    by_cases hf : AllFinished s
    · exact ⟨s, Relation.ReflTransGen.refl, hf⟩
    · obtain ⟨s', _, hlt, _⟩ := fan_progress s hinv hf
      omega
  | succ k ih =>
    intro s hm hinv
    by_cases hf : AllFinished s
    · exact ⟨s, Relation.ReflTransGen.refl, hf⟩
    · obtain ⟨s', hstep, hlt, hinv'⟩ := fan_progress s hinv hf
      obtain ⟨s'', hchain, hfin⟩ := ih s' (by omega) hinv'
      exact ⟨s'', Relation.ReflTransGen.head hstep hchain, hfin⟩

/-- C6: in the briefing fan-out of `create_briefings`, from the initial
state (all queued tasks waiting, the two permits of `asyncio.Semaphore(2)`
free) every reachable state has at most 2 briefing calls in flight —
admission is gated by the semaphore bound 2 — and from every reachable
state the fan-out can always run every task to a finished state (each task
finishing with success or failure; no step cancels a task on another's
failure). -/
theorem briefing_fanout_bound_and_completion (n : Nat) (s : FanState)
    (h : Reachable n s) :
    runningCount s ≤ 2 ∧
    ∃ s', Relation.ReflTransGen FanStep s s' ∧ AllFinished s' := by
  have hinv := reachable_inv n s h
  constructor
  · unfold SemInv at hinv
    omega
  · exact fan_completes_aux (fanMeasure s) s (Nat.le_refl _) hinv

/-- Witness for C6 at the initial state of a five-task fan-out (the five
non-empty categories of the spec's scenario). -/
theorem briefing_fanout_bound_and_completion_witness :
    runningCount (fanInit 5) ≤ 2 ∧
    ∃ s', Relation.ReflTransGen FanStep (fanInit 5) s' ∧ AllFinished s' :=
  briefing_fanout_bound_and_completion 5 (fanInit 5)
    Relation.ReflTransGen.refl

end Fanout

namespace Briefing

theorem filter_orderedInsert_score (s : ℚ) (x : String × Doc)
    (l : List (String × Doc)) :
    (l.orderedInsert scoreGe x).filter (fun p => decide (docScore p.2 = s)) =
      if docScore x.2 = s then
        x :: l.filter (fun p => decide (docScore p.2 = s))
      else l.filter (fun p => decide (docScore p.2 = s)) := by
  induction l with
  | nil =>
    by_cases h : docScore x.2 = s <;> simp [List.orderedInsert, h]
  | cons b t ih =>
    by_cases hxb : scoreGe x b
    · by_cases h : docScore x.2 = s <;>
        by_cases hb : docScore b.2 = s <;>
          simp [List.orderedInsert, hxb, h, hb]
    · have hlt : docScore x.2 < docScore b.2 := by
        have := hxb
        unfold scoreGe at this
        exact lt_of_not_le this
      by_cases h : docScore x.2 = s
      · have hb : ¬ docScore b.2 = s := by
          intro hbs
          exact absurd (hbs.trans h.symm) (ne_of_gt hlt)
        simp [List.orderedInsert, hxb, h, hb, ih]
      · by_cases hb : docScore b.2 = s <;>
          simp [List.orderedInsert, hxb, h, hb, ih]

theorem filter_insertionSort_score (s : ℚ) (l : List (String × Doc)) :
    (List.insertionSort scoreGe l).filter
        (fun p => decide (docScore p.2 = s)) =
      l.filter (fun p => decide (docScore p.2 = s)) := by
  induction l with
  | nil => rfl
  | cons a t ih =>
    rw [List.insertionSort, filter_orderedInsert_score]
    by_cases h : docScore a.2 = s <;> simp [h, ih]

/-- C3: the briefing synthesizer normalizes its document collection (map or
sequence) into (key, document) pairs and orders them by relevance score
descending with stable tie-breaking: the result is a permutation of the
normalized input, pairwise sorted by score descending, and for every score
value the subsequence of documents carrying that score is unchanged (so
equal-scored documents keep their original relative order).  In particular,
scores [0.9, 0.9, 0.5] keep both 0.9-documents, in order, ahead of the
0.5-document. -/
theorem briefing_sort_desc_stable (input : DocsInput) :
    (sortedItems input).Perm (normalizeDocs input) ∧
    (sortedItems input).Sorted scoreGe ∧
    (∀ s : ℚ, (sortedItems input).filter
        (fun p => decide (docScore p.2 = s)) =
      (normalizeDocs input).filter (fun p => decide (docScore p.2 = s))) ∧
    sortedItems (DocsInput.seq
        [ { emptyDoc with url := some "a", overall_score := some 0.9 }
        , { emptyDoc with url := some "b", overall_score := some 0.9 }
        , { emptyDoc with url := some "c", overall_score := some 0.5 } ]) =
      [ ("a", { emptyDoc with url := some "a", overall_score := some 0.9 })
      , ("b", { emptyDoc with url := some "b", overall_score := some 0.9 })
      , ("c", { emptyDoc with url := some "c", overall_score := some 0.5 }) ] := by
  refine ⟨List.perm_insertionSort scoreGe _,
    List.sorted_insertionSort scoreGe _,
    fun s => filter_insertionSort_score s _, ?_⟩
  norm_num [sortedItems, normalizeDocs, List.insertionSort, List.orderedInsert,
    scoreGe, docScore, emptyDoc, List.enum, List.enumFrom]

theorem sumEntryLen_nil : sumEntryLen [] = 0 := rfl

theorem sumEntryLen_cons (p : String × Doc) (l : List (String × Doc)) :
    sumEntryLen (p :: l) = (docEntry p.2).length + sumEntryLen l := by
  simp [sumEntryLen]

theorem string_length_data (s : String) : s.length = s.data.length := by
  cases s
  rfl

theorem truncateContent_length_le (c : String) :
    (truncateContent c).length ≤ 8023 := by
  unfold truncateContent
  by_cases h : 8000 < c.length
  · rw [if_pos h, String.length_append]
    have htake : (c.take 8000).length ≤ 8000 := by
      rw [string_length_data, String.data_take]
      exact le_trans (Nat.le_of_eq (List.length_take 8000 c.data))
        (min_le_left _ _)
    have hmark : ("... [content truncated]" : String).length = 23 := by decide
    omega
  · rw [if_neg h]
    omega

theorem buildDocTexts_eq_take (items : List (String × Doc)) (t : Nat) :
    buildDocTexts items t =
      (items.take (includeCount items t)).map (fun p => docEntry p.2) := by
  induction items generalizing t with
  | nil => rfl
  | cons p rest ih =>
    by_cases h : t + (docEntry p.2).length < 120000 <;>
      simp [buildDocTexts, includeCount, h, ih]

theorem includeCount_le_length (items : List (String × Doc)) (t : Nat) :
    includeCount items t ≤ items.length := by
  induction items generalizing t with
  | nil => exact Nat.le_refl 0
  | cons p rest ih =>
    by_cases h : t + (docEntry p.2).length < 120000 <;>
      simp [includeCount, h]
    exact ih _

theorem includeCount_included_lt_cap (items : List (String × Doc)) (t : Nat)
    (i : Nat) (hi : i < items.length) (hk : i < includeCount items t) :
    t + sumEntryLen (items.take i) +
      (docEntry (items.get ⟨i, hi⟩).2).length < 120000 := by
  induction items generalizing t i with
  | nil => exact absurd hi (Nat.not_lt_zero i)
  | cons p rest ih =>
    by_cases h : t + (docEntry p.2).length < 120000
    · cases i with
      | zero =>
        simpa [sumEntryLen_nil] using h
      | succ j =>
        have hj : j < rest.length := Nat.lt_of_succ_lt_succ hi
        have hjk : j < includeCount rest (t + (docEntry p.2).length) := by
          have := hk
          simp only [includeCount, if_pos h] at this
          exact Nat.lt_of_succ_lt_succ this
        have := ih (t + (docEntry p.2).length) j hj hjk
        simp only [List.take, sumEntryLen_cons, List.get] at this ⊢
        omega
    · simp only [includeCount, if_neg h] at hk
      exact absurd hk (Nat.not_lt_zero i)

theorem includeCount_stop (items : List (String × Doc)) (t : Nat) :
    includeCount items t = items.length ∨
      ∃ hk : includeCount items t < items.length,
        120000 ≤ t + sumEntryLen (items.take (includeCount items t)) +
          (docEntry (items.get ⟨includeCount items t, hk⟩).2).length := by
  induction items generalizing t with
  | nil => exact Or.inl rfl
  | cons p rest ih =>
    by_cases h : t + (docEntry p.2).length < 120000
    · rcases ih (t + (docEntry p.2).length) with heq | ⟨hk, hge⟩
      · left
        simp [includeCount, h, heq]
      · right
        refine ⟨by simpa [includeCount, h] using Nat.succ_lt_succ hk, ?_⟩
        simp only [includeCount, if_pos h, List.take, sumEntryLen_cons,
          List.get] at hge ⊢
        omega
    · right
      refine ⟨by simp [includeCount, h], ?_⟩
      simp only [includeCount, if_neg h, List.take, sumEntryLen_nil, List.get]
      omega

/-- C4: the documents whose entries enter the synthesizer prompt form a
ranked-order prefix of the ranked sequence: each entry is the document's
(per-document-capped, marker-appended) truncation — never longer than
8000 + 23 characters — entries are taken in ranked order while the running
total stays under the aggregate cap 120000, every admitted entry keeps the
total strictly below the cap, and at the first entry that would reach or
exceed the cap inclusion stops, dropping every remaining document whole. -/
theorem briefing_prompt_strict_ranked_prefix (items : List (String × Doc)) :
    (∀ c, (truncateContent c).length ≤ 8023) ∧
    ∃ k, k ≤ items.length ∧
      buildDocTexts items 0 = (items.take k).map (fun p => docEntry p.2) ∧
      (∀ i, ∀ hi : i < items.length, i < k →
        sumEntryLen (items.take i) +
          (docEntry (items.get ⟨i, hi⟩).2).length < 120000) ∧
      (k = items.length ∨ ∃ hk : k < items.length,
        120000 ≤ sumEntryLen (items.take k) +
          (docEntry (items.get ⟨k, hk⟩).2).length) := by
  refine ⟨truncateContent_length_le, includeCount items 0,
    includeCount_le_length items 0, buildDocTexts_eq_take items 0, ?_, ?_⟩
  · intro i hi hk
    have := includeCount_included_lt_cap items 0 i hi hk
    omega
  · rcases includeCount_stop items 0 with heq | ⟨hk, hge⟩
    · exact Or.inl heq
    · exact Or.inr ⟨hk, by omega⟩

/-- Witness for C4 at a concrete two-document ranked list. -/
theorem briefing_prompt_strict_ranked_prefix_witness :
    (∀ c, (truncateContent c).length ≤ 8023) ∧
    ∃ k, k ≤ ([("u", emptyDoc), ("v", emptyDoc)] : List (String × Doc)).length ∧
      buildDocTexts [("u", emptyDoc), ("v", emptyDoc)] 0 =
        (([("u", emptyDoc), ("v", emptyDoc)]
            : List (String × Doc)).take k).map (fun p => docEntry p.2) ∧
      (∀ i, ∀ hi : i <
          ([("u", emptyDoc), ("v", emptyDoc)] : List (String × Doc)).length,
        i < k →
        sumEntryLen (([("u", emptyDoc), ("v", emptyDoc)]
            : List (String × Doc)).take i) +
          (docEntry (([("u", emptyDoc), ("v", emptyDoc)]
              : List (String × Doc)).get ⟨i, hi⟩).2).length < 120000) ∧
      (k = ([("u", emptyDoc), ("v", emptyDoc)] : List (String × Doc)).length ∨
        ∃ hk : k <
            ([("u", emptyDoc), ("v", emptyDoc)] : List (String × Doc)).length,
          120000 ≤ sumEntryLen (([("u", emptyDoc), ("v", emptyDoc)]
              : List (String × Doc)).take k) +
            (docEntry (([("u", emptyDoc), ("v", emptyDoc)]
                : List (String × Doc)).get ⟨k, hk⟩).2).length) :=
  briefing_prompt_strict_ranked_prefix [("u", emptyDoc), ("v", emptyDoc)]

/-- C5: the embedding of `generate_category_briefing`'s generation step is a
total function of the LLM oracle outcome — every path, including a raised
call and an absent response body, returns a result dict rather than
re-raising — its content is empty on any failure (exception, absent body,
or blank text), and non-empty exactly when the call returned text that is
non-blank after stripping.  A single category's failure therefore yields an
empty briefing for that category only. -/
theorem generate_category_briefing_degrades (llm : LlmOutcome) :
    ((generate_category_briefing llm).content ≠ "" ↔
      ∃ c, llm = LlmOutcome.returns (some c) ∧ App.pyStrip c ≠ "") ∧
    (∀ e, llm = LlmOutcome.raises e →
      (generate_category_briefing llm).content = "") ∧
    (llm = LlmOutcome.returns none →
      (generate_category_briefing llm).content = "") := by
  refine ⟨?_, ?_, ?_⟩
  · cases llm with
    | raises e => simp [generate_category_briefing]
    | returns c =>
      cases c with
      | none => simp [generate_category_briefing]
      | some s => simp [generate_category_briefing]
  · rintro e rfl
    rfl
  · rintro rfl
    rfl

/-- Witness for C5: a raising call degrades to empty content, a successful
call yields the stripped non-empty text. -/
theorem generate_category_briefing_degrades_witness :
    (generate_category_briefing (LlmOutcome.raises "rate limited")).content =
        "" ∧
    (generate_category_briefing
        (LlmOutcome.returns (some "  text  "))).content ≠ "" :=
  ⟨(generate_category_briefing_degrades (LlmOutcome.raises "rate limited")).2.1
      "rate limited" rfl,
   (generate_category_briefing_degrades
      (LlmOutcome.returns (some "  text  "))).1.mpr
     ⟨"  text  ", rfl, by decide⟩⟩

/-- C7: the task-building loop of `create_briefings` queues one fan-out
task per category with truthy (non-empty) curated input — only those
categories produce synthesis calls — and for every category with empty or
absent curated input it writes an explicit empty-string briefing under that
category's briefing key while queueing no task.  With exactly the financial
and news categories non-empty, exactly two briefing tasks are queued. -/
theorem create_briefings_task_selection (s : CuratedState) :
    briefingTasks s =
      (categoriesList.filter
          (fun cs => decide (s ("curated_" ++ cs.dataField) ≠ []))).map
        (fun cs =>
          { category := cs.category
            briefingKey := cs.briefingKey
            dataField := cs.dataField
            curatedData := s ("curated_" ++ cs.dataField) }) ∧
    emptyBriefingWrites s =
      (categoriesList.filter
          (fun cs => decide (s ("curated_" ++ cs.dataField) = []))).map
        (fun cs => (cs.briefingKey, "")) ∧
    ((briefingTasks (fun k =>
        if k = "curated_financial_data" ∨ k = "curated_news_data" then
          [("u", emptyDoc)]
        else [])).map (fun t => t.category)) = ["financial", "news"] := by
  refine ⟨?_, ?_, rfl⟩ <;>
  · by_cases h1 : s "curated_financial_data" = [] <;>
    by_cases h2 : s "curated_news_data" = [] <;>
    by_cases h3 : s "curated_industry_data" = [] <;>
    by_cases h4 : s "curated_company_data" = [] <;>
    by_cases h5 : s "curated_auditor_data" = [] <;>
      simp [briefingTasks, emptyBriefingWrites, createBriefingTasks,
        categoriesList, h1, h2, h3, h4, h5]

end Briefing

namespace App

/-- Witness for C1 at Scenario A's empty state and at a completed state. -/
theorem process_research_completed_iff_witness :
    truthyReport { report := some "R", editorReport := none, error := none } =
        some "R" ∧
    terminalEvent
        (RunOutcome.ok { report := some "R", editorReport := none, error := none })
        "Acme" =
      { status := "completed"
        message := "Research completed successfully"
        error := none
        result := some ("R", "Acme") } ∧
    truthyReport { report := none, editorReport := none, error := none } =
        none ∧
    (terminalEvent
        (RunOutcome.ok { report := none, editorReport := none, error := none })
        "Acme").error = some "No report found" :=
  ⟨rfl,
   (process_research_completed_iff
      { report := some "R", editorReport := none, error := none } "Acme").2.1
      "R" rfl,
   rfl,
   ((process_research_completed_iff
      { report := none, editorReport := none, error := none } "Acme").2.2.1
      rfl).2.trans
     (congrArg some
       ((process_research_completed_iff
          { report := none, editorReport := none, error := none } "Acme").2.2.2.1
          rfl))⟩

/-- Witness for C10 at concrete slot states and questions. -/
theorem latest_report_slot_and_qa_guards_witness :
    latestAfterRun
        (RunOutcome.ok { report := some "R", editorReport := none, error := none })
        "Acme" none = some { company := "Acme", report := "R" } ∧
    latestAfterRun
        (RunOutcome.ok { report := none, editorReport := none, error := none })
        "Acme" latestReportInit = latestReportInit ∧
    (qa_stream true (some { company := "Acme", report := "R" }) "What?").isOk =
        true :=
  ⟨latest_report_slot_and_qa_guards.2.1 _ none "Acme" "R" rfl,
   latest_report_slot_and_qa_guards.2.2.1 _ latestReportInit "Acme" rfl,
   (latest_report_slot_and_qa_guards.2.2.2.2.2 true
      (some { company := "Acme", report := "R" }) "What?").mpr
     ⟨rfl, by decide, { company := "Acme", report := "R" }, rfl, by decide⟩⟩

end App
